import Mathlib

/-!
Verification of the word-search solver core (`src/word_search.py`) against its
natural-language specification.  The Python functions are shallowly embedded:
the grid is a list of rows of characters, Python `str` words are lists of
characters, numpy indexing (including its negative-index wraparound and its
`IndexError` on overflow) is modelled by `npGet`, and fallible code returns
`Except PyError`.  The search loop additionally records, as instrumentation,
which cells had their letter fetched (`reads`) and which cells were examined
as match candidates (`processed`).
-/

/-- Exceptions the embedded Python code can raise: numpy/str `IndexError`
and `list.remove`'s `ValueError`. -/
inductive PyError where
  | indexError
  | valueError
deriving DecidableEq, Repr

/-- A Python `str` is modelled as its list of characters. -/
abbrev Str := List Char

/-- The word-search matrix: a list of rows of single characters. -/
abbrev Grid := List (List Char)

/-- Container for the row and column position of a single cell
(`Cell` in `word_search.py`). -/
structure Cell where
  row : Int
  column : Int
deriving DecidableEq, Repr

/-- A single letter together with its cell (`Letter` in `word_search.py`). -/
structure Letter where
  char : Char
  cell : Cell
deriving DecidableEq, Repr

/-- A found word with the cells of its first and last character
(`Word` in `word_search.py`; the Python field `end` is `endCell` here since
`end` is a Lean keyword). -/
structure Word where
  word : Str
  start : Cell
  endCell : Cell
deriving DecidableEq, Repr

/-- Number of rows of the grid. -/
def rowsN (g : Grid) : Nat := g.length

/-- Number of columns of the grid (length of the first row; the shape numpy
derives for a rectangular matrix). -/
def colsN (g : Grid) : Nat := (g.headD []).length

/-- Direct in-bounds read of the character at a (non-negative) coordinate. -/
def charAt (g : Grid) (r c : Int) : Char := (g.getD r.toNat []).getD c.toNat 'A'

/-- Whether a cell lies inside `[0, rows) × [0, cols)`. -/
def inBoundsCell (g : Grid) (c : Cell) : Bool :=
  (decide (0 ≤ c.row) && decide (c.row < (rowsN g : Int))) &&
    (decide (0 ≤ c.column) && decide (c.column < (colsN g : Int)))

/-- A well-formed grid: at least one row, at least one column, every row of
the same length. -/
def WellFormed (g : Grid) : Prop :=
  g ≠ [] ∧ 1 ≤ colsN g ∧ ∀ row ∈ g, row.length = colsN g

instance (g : Grid) : Decidable (WellFormed g) := by
  unfold WellFormed; infer_instance

/-- Numpy scalar indexing `matrix[r, c]`: indices in `[-m, m) × [-n, n)` are
accepted, negative indices wrap to the far end, anything else raises
`IndexError`. -/
def npGet (matrix : Grid) (r c : Int) : Except PyError Char :=
  let m : Int := rowsN matrix
  let n : Int := colsN matrix
  if -m ≤ r ∧ r < m ∧ -n ≤ c ∧ c < n then
    .ok (charAt matrix (if r < 0 then r + m else r) (if c < 0 then c + n else c))
  else
    .error .indexError

/-- Embedding of Python `range(a, b)` over integers. -/
def intRange (a b : Int) : List Int :=
  (List.range (b - a).toNat).map (fun i => a + (i : Int))

/-- The 8 direction vectors `\x7b-1,0,1\x7d² minus (0,0)`, in row-major offset
order (increasing row-delta, then increasing column-delta). -/
def dirs8 : List (Int × Int) :=
  [(-1, -1), (-1, 0), (-1, 1), (0, -1), (0, 1), (1, -1), (1, 0), (1, 1)]

/-- The body of `get_adjacent_cells`'s nested loop: read each offset cell in
order, aborting on an (unreachable for in-bounds positions) `IndexError`. -/
def collectAdj (matrix : Grid) (position : Cell) :
    List (Int × Int) → Except PyError (List Letter)
  | [] => .ok []
  | (dr, dc) :: rest =>
    match npGet matrix (position.row + dr) (position.column + dc) with
    | .error e => .error e
    | .ok ch =>
      match collectAdj matrix position rest with
      | .error e => .error e
      | .ok ls => .ok (⟨ch, ⟨position.row + dr, position.column + dc⟩⟩ :: ls)

/-- Embedding of `get_adjacent_cells`: the row/column deviation ranges are
clipped at the borders exactly as in the source, the `(0,0)` offset is
skipped, and each remaining offset cell is read in loop order. -/
def getAdjacentCells (matrix : Grid) (position : Cell) :
    Except PyError (List Letter) :=
  let max_row : Int := rowsN matrix
  let max_column : Int := colsN matrix
  let start_row : Int := if position.row > 0 then -1 else 0
  let end_row : Int := if position.row < max_row - 1 then 2 else 1
  let start_column : Int := if position.column > 0 then -1 else 0
  let end_column : Int := if position.column < max_column - 1 then 2 else 1
  let offsets :=
    (intRange start_row end_row).flatMap
      (fun dr => (intRange start_column end_column).map (fun dc => (dr, dc)))
  collectAdj matrix position (offsets.filter (fun o => o ≠ ((0 : Int), (0 : Int))))

/-- Modelled from the spec: the adjacency list as §4.3 words it — the 8
offsets in row-major offset order, filtered to the in-bounds ones, each
paired with the neighbor's character.  Used to compare `getAdjacentCells`
against the specified ordering. -/
def neighborsSpec (g : Grid) (p : Cell) : List Letter :=
  (dirs8.filter (fun o => inBoundsCell g ⟨p.row + o.1, p.column + o.2⟩)).map
    (fun o => ⟨charAt g (p.row + o.1) (p.column + o.2), ⟨p.row + o.1, p.column + o.2⟩⟩)

/-- The collection loop of `cells_match_to_word`: take `n` characters
starting at `pos`, stepping by `dir` after each read; `none` models the
caught `IndexError`. -/
def takeLetters (matrix : Grid) : Nat → Int × Int → Int × Int → Option (List Char)
  | 0, _, _ => some []
  | n + 1, pos, dir =>
    match npGet matrix pos.1 pos.2 with
    | .error _ => none
    | .ok ch =>
      match takeLetters matrix n (pos.1 + dir.1, pos.2 + dir.2) dir with
      | none => none
      | some rest => some (ch :: rest)

/-- Embedding of `cells_match_to_word`: walk `len(word)` cells from `start`
along `direction`; an `IndexError` during the walk yields `false`, otherwise
the collected letters are compared with the word. -/
def cellsMatchToWord (matrix : Grid) (word : Str) (start : Cell)
    (direction : Int × Int) : Bool :=
  match takeLetters matrix word.length (start.row, start.column) direction with
  | none => false
  | some letters => word = letters

/-- The word index: insertion-ordered association list from first letter to
the bucket of pending words (a Python `dict`). -/
abbrev Index := List (Char × List Str)

/-- Python `dict.get`: first (only) binding of the key, if any. -/
def lookupIndex (d : Index) (c : Char) : Option (List Str) :=
  (d.find? (fun p => p.1 == c)).map (·.2)

/-- In-place overwrite of the bucket of an existing key. -/
def updateIndex (d : Index) (c : Char) (bucket : List Str) : Index :=
  d.map (fun p => if p.1 = c then (c, bucket) else p)

/-- Python `del d[c]`: drop the binding of the key. -/
def eraseIndex (d : Index) (c : Char) : Index :=
  d.filter (fun p => p.1 != c)

/-- The loop of `create_words_dictionary`: group words by first character,
preserving insertion order; `word[0]` raises `IndexError` on an empty word. -/
def cwdLoop : List Str → Index → Except PyError Index
  | [], d => .ok d
  | w :: ws, d =>
    match w with
    | [] => .error .indexError
    | initial :: _ =>
      match lookupIndex d initial with
      | none => cwdLoop ws (d ++ [(initial, [w])])
      | some bucket => cwdLoop ws (updateIndex d initial (bucket ++ [w]))

/-- Embedding of `create_words_dictionary`. -/
def createWordsDictionary (words : List Str) : Except PyError Index :=
  cwdLoop words []

/-- One candidate word at one neighbor letter inside `get_matched_words`:
`word[1]` (raising `IndexError` when `len(word) < 2`) is compared to the
neighbor, and on a full direction match the `Word` record is appended. -/
def gmwStep (matrix : Grid) (start : Cell) (letter : Letter) (acc : List Word)
    (word : Str) : Except PyError (List Word) :=
  match word with
  | [] => .error .indexError
  | [_] => .error .indexError
  | _ :: second :: _ =>
    if letter.char ≠ second then .ok acc
    else
      let row_step := letter.cell.row - start.row
      let column_step := letter.cell.column - start.column
      if cellsMatchToWord matrix word start (row_step, column_step) then
        .ok (acc ++ [⟨word, start,
          ⟨start.row + row_step * ((word.length : Int) - 1),
           start.column + column_step * ((word.length : Int) - 1)⟩⟩])
      else .ok acc

/-- Inner loop of `get_matched_words` (`for word in words`). -/
def gmwWords (matrix : Grid) (start : Cell) (letter : Letter) :
    List Str → List Word → Except PyError (List Word)
  | [], acc => .ok acc
  | w :: ws, acc =>
    match gmwStep matrix start letter acc w with
    | .error e => .error e
    | .ok acc' => gmwWords matrix start letter ws acc'

/-- Outer loop of `get_matched_words` (`for letter, letter_cell in letters`). -/
def gmwLetters (matrix : Grid) (start : Cell) (words : List Str) :
    List Letter → List Word → Except PyError (List Word)
  | [], acc => .ok acc
  | l :: ls, acc =>
    match gmwWords matrix start l words acc with
    | .error e => .error e
    | .ok acc' => gmwLetters matrix start words ls acc'

/-- Embedding of `get_matched_words`. -/
def getMatchedWords (word_search : Grid) (start_point : Cell)
    (letters : List Letter) (words : List Str) : Except PyError (List Word) :=
  gmwLetters word_search start_point words letters []

/-- Python `list.remove`: drop the first occurrence, `ValueError` if absent. -/
def removeFirst : List Str → Str → Except PyError (List Str)
  | [], _ => .error .valueError
  | x :: xs, w =>
    if x = w then .ok xs
    else
      match removeFirst xs w with
      | .error e => .error e
      | .ok rest => .ok (x :: rest)

/-- Embedding of `filter_words`: remove each word of the second list from the
first, in order (the source mutates `filter_from`; here the updated list is
returned). -/
def filterWords : List Str → List Str → Except PyError (List Str)
  | filter_from, [] => .ok filter_from
  | filter_from, w :: ws =>
    match removeFirst filter_from w with
    | .error e => .error e
    | .ok rest => filterWords rest ws

/-- Cells of one row in enumeration order, paired with their characters. -/
def rowCells (r : Nat) : Nat → List Char → List (Cell × Char)
  | _, [] => []
  | c, ch :: rest => (⟨(r : Int), (c : Int)⟩, ch) :: rowCells r (c + 1) rest

/-- Cells of the rows starting at row index `r`, row-major. -/
def gridCells : Nat → Grid → List (Cell × Char)
  | _, [] => []
  | r, row :: rest => rowCells r 0 row ++ gridCells (r + 1) rest

/-- The row-major enumeration of the grid performed by `find_words`'s two
nested `enumerate` loops. -/
def cellsOf (g : Grid) : List (Cell × Char) := gridCells 0 g

instance {ε α : Type} [DecidableEq ε] [DecidableEq α] : DecidableEq (Except ε α)
  | .error a, .error b =>
    if h : a = b then .isTrue (by rw [h]) else .isFalse (by simp [h])
  | .error _, .ok _ => .isFalse (fun h => Except.noConfusion h)
  | .ok _, .error _ => .isFalse (fun h => Except.noConfusion h)
  | .ok a, .ok b =>
    if h : a = b then .isTrue (by rw [h]) else .isFalse (by simp [h])

/-- Result of one instrumented `find_words` run: the returned list (or the
raised exception), the final state of the word index, the cells whose letter
the loop fetched, and the cells that were examined as candidates (reached the
index membership test). -/
structure ScanResult where
  out : Except PyError (List Word)
  finalIndex : Index
  reads : List Cell
  processed : List Cell
deriving DecidableEq, Repr

/-- The doubly-nested scan loop of `find_words`, one grid cell per step.  In
source order: the loop fetches the cell's letter (recorded in `reads`), then
returns if the index is empty, then looks the letter up (`processed`), runs
the adjacency scan and the matcher, extends the result list, prunes the
bucket, and deletes it when drained. -/
def findWordsAux (word_search : Grid) :
    List (Cell × Char) → Index → List Word → List Cell → List Cell → ScanResult
  | [], idx, found, rs, ps => ⟨.ok found, idx, rs, ps⟩
  | (cell, letter) :: rest, idx, found, rs, ps =>
    let rs' := rs ++ [cell]
    if idx = [] then ⟨.ok found, idx, rs', ps⟩
    else
      let ps' := ps ++ [cell]
      match lookupIndex idx letter with
      | none => findWordsAux word_search rest idx found rs' ps'
      | some words_to_match =>
        match getAdjacentCells word_search cell with
        | .error e => ⟨.error e, idx, rs', ps'⟩
        | .ok adjacent_letters =>
          match getMatchedWords word_search cell adjacent_letters words_to_match with
          | .error e => ⟨.error e, idx, rs', ps'⟩
          | .ok words_matched =>
            if words_matched = [] then findWordsAux word_search rest idx found rs' ps'
            else
              let found' := found ++ words_matched
              match filterWords words_to_match (words_matched.map (·.word)) with
              | .error e => ⟨.error e, idx, rs', ps'⟩
              | .ok new_bucket =>
                let idx' :=
                  if new_bucket = [] then eraseIndex idx letter
                  else updateIndex idx letter new_bucket
                findWordsAux word_search rest idx' found' rs' ps'

/-- Instrumented embedding of `find_words`: build the first-letter index,
then scan the grid row-major. -/
def findWordsFull (word_search : Grid) (words : List Str) : ScanResult :=
  match createWordsDictionary words with
  | .error e => ⟨.error e, [], [], []⟩
  | .ok idx => findWordsAux word_search (cellsOf word_search) idx [] [] []

/-- Embedding of `find_words` proper: the returned list or raised exception. -/
def findWords (word_search : Grid) (words : List Str) : Except PyError (List Word) :=
  (findWordsFull word_search words).out

/-- Modelled from the spec: `word` is genuinely spelled out in the grid from
`start` along `d` with every step inside `[0, rows) × [0, cols)` — an actual
in-bounds occurrence, as opposed to one read through index wraparound. -/
def straightLine (g : Grid) (w : Str) (start : Cell) (d : Int × Int) : Bool :=
  (List.range w.length).all (fun i =>
    let r := start.row + (i : Int) * d.1
    let c := start.column + (i : Int) * d.2
    inBoundsCell g ⟨r, c⟩ && (charAt g r c == w.getD i 'A'))

theorem npGet_of_inBounds (g : Grid) (c : Cell) (h : inBoundsCell g c = true) :
    npGet g c.row c.column = .ok (charAt g c.row c.column) := by
  simp only [inBoundsCell, Bool.and_eq_true, decide_eq_true_eq] at h
  obtain ⟨⟨h1, h2⟩, h3, h4⟩ := h
  unfold npGet
  rw [if_pos (by omega), if_neg (by omega), if_neg (by omega)]

theorem collectAdj_ok (g : Grid) (p : Cell) (offs : List (Int × Int))
    (h : ∀ o ∈ offs, inBoundsCell g ⟨p.row + o.1, p.column + o.2⟩ = true) :
    collectAdj g p offs =
      .ok (offs.map fun o =>
        ⟨charAt g (p.row + o.1) (p.column + o.2), ⟨p.row + o.1, p.column + o.2⟩⟩) := by
  induction offs with
  | nil => rfl
  | cons o rest ih =>
    obtain ⟨o1, o2⟩ := o
    have hb := h (o1, o2) (by simp)
    have e := npGet_of_inBounds g ⟨p.row + o1, p.column + o2⟩ hb
    simp only [collectAdj, e, ih (fun x hx => h x (by simp [hx])), List.map_cons]

theorem intRange_guards (x m : Int) (hx0 : 0 ≤ x) (hxm : x < m) :
    intRange (if x > 0 then -1 else 0) (if x < m - 1 then 2 else 1) =
      [-1, 0, 1].filter (fun d => decide (0 ≤ x + d) && decide (x + d < m)) := by
  have e1 : intRange (-1) 2 = [-1, 0, 1] := by decide
  have e2 : intRange (-1) 1 = [-1, 0] := by decide
  have e3 : intRange 0 2 = [0, 1] := by decide
  have e4 : intRange 0 1 = [0] := by decide
  by_cases a : x > 0 <;> by_cases b : x < m - 1 <;>
    simp only [a, b, if_true, if_false, iff_true, iff_false, e1, e2, e3, e4] <;>
    simp (disch := omega) [List.filter_cons, decide_eq_true, decide_eq_false]

theorem filter_cross (rOK cOK : Int → Bool) (h0r : rOK 0 = true) (h0c : cOK 0 = true) :
    ((([-1, 0, 1].filter rOK).flatMap
        (fun dr => ([-1, 0, 1].filter cOK).map (fun dc => (dr, dc)))).filter
      (fun o => o ≠ ((0 : Int), (0 : Int)))) =
      dirs8.filter (fun o => rOK o.1 && cOK o.2) := by
  cases h1 : rOK (-1) <;> cases h2 : rOK 1 <;> cases h3 : cOK (-1) <;> cases h4 : cOK 1 <;>
    simp [dirs8, List.filter_cons, List.flatMap, h0r, h0c, h1, h2, h3, h4]

theorem getAdjacentCells_eq_neighborsSpec (g : Grid) (p : Cell)
    (h : inBoundsCell g p = true) :
    getAdjacentCells g p = .ok (neighborsSpec g p) := by
  simp only [inBoundsCell, Bool.and_eq_true, decide_eq_true_eq] at h
  obtain ⟨⟨h1, h2⟩, h3, h4⟩ := h
  simp only [getAdjacentCells]
  rw [intRange_guards p.row (rowsN g) h1 h2, intRange_guards p.column (colsN g) h3 h4]
  rw [filter_cross _ _ (by simp ; omega) (by simp ; omega)]
  rw [collectAdj_ok g p _ ?inb]
  case inb =>
    intro o ho
    exact (List.mem_filter.mp ho).2
  rfl

theorem neighborsSpec_length_le (g : Grid) (p : Cell) :
    (neighborsSpec g p).length ≤ 8 := by
  unfold neighborsSpec
  rw [List.length_map]
  exact le_trans (List.length_filter_le _ _) (by decide)

theorem three_le_neighborsSpec_length (g : Grid) (p : Cell)
    (hr : 2 ≤ rowsN g) (hc : 2 ≤ colsN g) (h : inBoundsCell g p = true) :
    3 ≤ (neighborsSpec g p).length := by
  simp only [inBoundsCell, Bool.and_eq_true, decide_eq_true_eq] at h
  obtain ⟨⟨h1, h2⟩, h3, h4⟩ := h
  unfold neighborsSpec
  rw [List.length_map]
  have step : ∀ t : List (Int × Int), List.Sublist t dirs8 →
      (∀ o ∈ t, inBoundsCell g ⟨p.row + o.1, p.column + o.2⟩ = true) →
      t.length ≤ (dirs8.filter
        (fun o => inBoundsCell g ⟨p.row + o.1, p.column + o.2⟩)).length := by
    intro t hs hall
    have hf := List.Sublist.filter
      (fun o => inBoundsCell g ⟨p.row + o.1, p.column + o.2⟩) hs
    rw [List.filter_eq_self.mpr hall] at hf
    exact hf.length_le
  by_cases hb : p.row + 1 < (rowsN g : Int) <;>
      by_cases hd : p.column + 1 < (colsN g : Int)
  · exact le_trans (by norm_num)
      (step [(0, 1), (1, 0), (1, 1)] (by decide)
        (by intro o ho; fin_cases ho <;> simp [inBoundsCell] <;> omega))
  · exact le_trans (by norm_num)
      (step [(0, -1), (1, -1), (1, 0)] (by decide)
        (by intro o ho; fin_cases ho <;> simp [inBoundsCell] <;> omega))
  · exact le_trans (by norm_num)
      (step [(-1, 0), (-1, 1), (0, 1)] (by decide)
        (by intro o ho; fin_cases ho <;> simp [inBoundsCell] <;> omega))
  · exact le_trans (by norm_num)
      (step [(-1, -1), (-1, 0), (0, -1)] (by decide)
        (by intro o ho; fin_cases ho <;> simp [inBoundsCell] <;> omega))

theorem neighborsSpec_mem (g : Grid) (p : Cell) :
    ∀ l ∈ neighborsSpec g p,
      inBoundsCell g l.cell = true ∧ l.char = charAt g l.cell.row l.cell.column := by
  intro l hl
  unfold neighborsSpec at hl
  obtain ⟨o, ho, rfl⟩ := List.mem_map.mp hl
  exact ⟨(List.mem_filter.mp ho).2, rfl⟩

theorem cwdLoop_empty_word (ws : List Str) :
    ∀ d : Index, [] ∈ ws → cwdLoop ws d = .error .indexError := by
  induction ws with
  | nil => intro d hd; cases hd
  | cons w rest ih =>
    intro d hd
    match w with
    | [] => rfl
    | c :: t =>
      have hrest : ([] : Str) ∈ rest := by
        rcases List.mem_cons.mp hd with h | h
        · cases h
        · exact h
      cases hl : lookupIndex d c <;> simp only [cwdLoop, hl] <;> exact ih _ hrest

/-- C9: a zero-length entry in the word list makes `create_words_dictionary`
fail (with `IndexError` from `word[0]`) while the index is being built, so
`find_words` surfaces the failure before the grid scan begins: no cell is
ever read or processed. -/
theorem findWords_empty_word (g : Grid) (words : List Str) (hw : [] ∈ words) :
    createWordsDictionary words = .error .indexError ∧
      findWords g words = .error .indexError ∧
      (findWordsFull g words).reads = [] ∧ (findWordsFull g words).processed = [] := by
  have h := cwdLoop_empty_word words [] hw
  refine ⟨h, ?_, ?_, ?_⟩ <;>
    simp [findWords, findWordsFull, createWordsDictionary, h]

theorem gmwStep_long_ok (g : Grid) (start : Cell) (letter : Letter)
    (acc : List Word) (a b : Char) (t : Str) :
    ∃ acc', gmwStep g start letter acc (a :: b :: t) = .ok acc' := by
  simp only [gmwStep]
  by_cases h : letter.char ≠ b
  · exact ⟨acc, by rw [if_pos h]⟩
  · rw [if_neg h]
    by_cases hm : cellsMatchToWord g (a :: b :: t) start
      (letter.cell.row - start.row, letter.cell.column - start.column) = true
    · exact ⟨_, by rw [if_pos hm]⟩
    · exact ⟨acc, by rw [if_neg hm]⟩

theorem gmwWords_short_word (g : Grid) (start : Cell) (letter : Letter) :
    ∀ (ws : List Str) (acc : List Word), (∃ w ∈ ws, w.length < 2) →
      gmwWords g start letter ws acc = .error .indexError := by
  intro ws
  induction ws with
  | nil => intro acc h; simp at h
  | cons w rest ih =>
    intro acc h
    match w with
    | [] => rfl
    | [_] => rfl
    | a :: b :: t =>
      obtain ⟨acc', hstep⟩ := gmwStep_long_ok g start letter acc a b t
      have hrest : ∃ w ∈ rest, w.length < 2 := by
        obtain ⟨w', hw', hlen⟩ := h
        rcases List.mem_cons.mp hw' with h | h
        · subst h; simp at hlen; omega
        · exact ⟨w', h, hlen⟩
      simp only [gmwWords, hstep]
      exact ih acc' hrest

theorem getMatchedWords_short_word (g : Grid) (start : Cell) (l : Letter)
    (ls : List Letter) (ws : List Str) (h : ∃ w ∈ ws, w.length < 2) :
    getMatchedWords g start (l :: ls) ws = .error .indexError := by
  unfold getMatchedWords
  simp only [gmwLetters, gmwWords_short_word g start l ws [] h]

theorem neighborsSpec_ne_nil (g : Grid) (p : Cell)
    (hsz : 2 ≤ rowsN g ∨ 2 ≤ colsN g) (h : inBoundsCell g p = true) :
    neighborsSpec g p ≠ [] := by
  simp only [inBoundsCell, Bool.and_eq_true, decide_eq_true_eq] at h
  obtain ⟨⟨h1, h2⟩, h3, h4⟩ := h
  have key : ∃ o ∈ dirs8, inBoundsCell g ⟨p.row + o.1, p.column + o.2⟩ = true := by
    rcases hsz with hs | hs
    · by_cases hb : p.row + 1 < (rowsN g : Int)
      · exact ⟨(1, 0), by decide, by simp [inBoundsCell]; omega⟩
      · exact ⟨(-1, 0), by decide, by simp [inBoundsCell]; omega⟩
    · by_cases hb : p.column + 1 < (colsN g : Int)
      · exact ⟨(0, 1), by decide, by simp [inBoundsCell]; omega⟩
      · exact ⟨(0, -1), by decide, by simp [inBoundsCell]; omega⟩
  obtain ⟨o, ho, hob⟩ := key
  unfold neighborsSpec
  intro hnil
  rw [List.map_eq_nil_iff, List.filter_eq_nil_iff] at hnil
  exact absurd hob (by simpa using hnil o ho)

theorem rowCells_mem (r : Nat) :
    ∀ (row : List Char) (c0 : Nat) (q : Cell × Char), q ∈ rowCells r c0 row →
      q.1.row = (r : Int) ∧ (c0 : Int) ≤ q.1.column ∧
        q.1.column < (c0 : Int) + row.length := by
  intro row
  induction row with
  | nil => intro c0 q hq; cases hq
  | cons ch rest ih =>
    intro c0 q hq
    rcases List.mem_cons.mp hq with h | h
    · subst h
      refine ⟨rfl, by simp, ?_⟩
      simp only [List.length_cons]
      push_cast
      omega
    · obtain ⟨h1, h2, h3⟩ := ih (c0 + 1) q h
      refine ⟨h1, by push_cast at h2 ⊢; omega, ?_⟩
      simp only [List.length_cons]
      push_cast at h3 ⊢
      omega

theorem gridCells_mem :
    ∀ (rows : Grid) (r0 : Nat) (q : Cell × Char), q ∈ gridCells r0 rows →
      ((r0 : Int) ≤ q.1.row ∧ q.1.row < (r0 : Int) + rows.length) ∧
        ∃ row ∈ rows, 0 ≤ q.1.column ∧ q.1.column < (row.length : Int) := by
  intro rows
  induction rows with
  | nil => intro r0 q hq; cases hq
  | cons row rest ih =>
    intro r0 q hq
    rcases List.mem_append.mp hq with h | h
    · obtain ⟨h1, h2, h3⟩ := rowCells_mem r0 row 0 q h
      refine ⟨⟨by omega, ?_⟩, ⟨row, by simp, by simpa using h2, by simpa using h3⟩⟩
      simp only [List.length_cons]
      push_cast
      omega
    · obtain ⟨⟨h1, h2⟩, row', hrow', hc⟩ := ih (r0 + 1) q h
      refine ⟨⟨by push_cast at h1 ⊢; omega, ?_⟩, ⟨row', by simp [hrow'], hc⟩⟩
      simp only [List.length_cons]
      push_cast at h2 ⊢
      omega

theorem cellsOf_inBounds (g : Grid) (hwf : WellFormed g) :
    ∀ q ∈ cellsOf g, inBoundsCell g q.1 = true := by
  intro q hq
  obtain ⟨⟨h1, h2⟩, row, hrow, hc1, hc2⟩ := gridCells_mem g 0 q hq
  have hlen : row.length = colsN g := hwf.2.2 row hrow
  simp only [inBoundsCell, Bool.and_eq_true, decide_eq_true_eq]
  refine ⟨⟨by omega, ?_⟩, hc1, ?_⟩
  · simpa [rowsN] using h2
  · rw [hlen] at hc2; exact hc2

theorem findWordsAux_single_short (g : Grid) (ch : Char)
    (hsz : 2 ≤ rowsN g ∨ 2 ≤ colsN g) :
    ∀ (cells : List (Cell × Char)),
      (∀ q ∈ cells, inBoundsCell g q.1 = true) → (∃ q ∈ cells, q.2 = ch) →
      ∀ (found : List Word) (rs ps : List Cell),
        (findWordsAux g cells [(ch, [[ch]])] found rs ps).out = .error .indexError := by
  intro cells
  induction cells with
  | nil => intro _ hex; simp at hex
  | cons q rest ih =>
    obtain ⟨cell, letter⟩ := q
    intro hin hex found rs ps
    have hinc : inBoundsCell g cell = true := hin (cell, letter) (by simp)
    by_cases hcl : letter = ch
    · subst hcl
      have hlk : lookupIndex [(letter, [[letter]])] letter = some [[letter]] := by
        simp [lookupIndex]
      have hadj := getAdjacentCells_eq_neighborsSpec g cell hinc
      obtain ⟨l, ls, hne⟩ :=
        List.exists_cons_of_ne_nil (neighborsSpec_ne_nil g cell hsz hinc)
      have hgmw : getMatchedWords g cell (neighborsSpec g cell) [[letter]] =
          .error .indexError := by
        rw [hne]
        exact getMatchedWords_short_word g cell l ls [[letter]]
          ⟨[letter], by simp, by simp⟩
      simp only [findWordsAux, hlk, hadj, hgmw]
      rfl
    · have hlk : lookupIndex [(ch, [[ch]])] letter = none := by
        have hb : (ch == letter) = false := beq_false_of_ne (Ne.symm hcl)
        simp [lookupIndex, List.find?, hb]
      have hex' : ∃ q ∈ rest, q.2 = ch := by
        obtain ⟨q', hq', hq2⟩ := hex
        rcases List.mem_cons.mp hq' with h | h
        · subst h; exact absurd hq2 hcl
        · exact ⟨q', h, hq2⟩
      simp only [findWordsAux, hlk]
      exact ih (fun x hx => hin x (by simp [hx])) hex' found (rs ++ [cell])
        (ps ++ [cell])

/-- C10: on a well-formed grid with more than one cell whose scan reaches a
cell carrying the character of a length-1 word in the list (the word list
being that single word, so the scan necessarily reaches it), `find_words`
raises `IndexError` from evaluating `word[1]` in `get_matched_words`,
instead of matching or skipping the word. -/
theorem findWords_length_one_indexError (g : Grid) (ch : Char)
    (hwf : WellFormed g) (hsz : 2 ≤ rowsN g * colsN g)
    (hocc : ∃ q ∈ cellsOf g, q.2 = ch) :
    findWords g [[ch]] = .error .indexError := by
  have hor : 2 ≤ rowsN g ∨ 2 ≤ colsN g := by
    by_contra hcon
    push_neg at hcon
    have := Nat.mul_le_mul (Nat.le_of_lt_succ hcon.1) (Nat.le_of_lt_succ hcon.2)
    omega
  have hd : createWordsDictionary [[ch]] = .ok [(ch, [[ch]])] := rfl
  unfold findWords findWordsFull
  rw [hd]
  exact findWordsAux_single_short g ch hor (cellsOf g) (cellsOf_inBounds g hwf)
    hocc [] [] []

/-- Witness for C10 at the grid `[['z','x']]` with word list `[\"z\"]`. -/
theorem findWords_length_one_indexError_witness :
    findWords [['z', 'x']] [['z']] = .error .indexError :=
  findWords_length_one_indexError [['z', 'x']] 'z' (by decide) (by decide)
    ⟨(⟨0, 0⟩, 'z'), by decide, rfl⟩

theorem collectAdj_mem (g : Grid) (p : Cell) :
    ∀ (offs : List (Int × Int)) (ls : List Letter), collectAdj g p offs = .ok ls →
      ∀ l ∈ ls, ∃ o ∈ offs, l.cell = ⟨p.row + o.1, p.column + o.2⟩ := by
  intro offs
  induction offs with
  | nil =>
    intro ls h l hl
    simp only [collectAdj] at h
    cases h
    cases hl
  | cons o rest ih =>
    obtain ⟨o1, o2⟩ := o
    intro ls h l hl
    simp only [collectAdj] at h
    cases hg : npGet g (p.row + o1) (p.column + o2) with
    | error e => rw [hg] at h; cases h
    | ok ch =>
      rw [hg] at h
      cases hrec : collectAdj g p rest with
      | error e => rw [hrec] at h; cases h
      | ok tail =>
        rw [hrec] at h
        cases h
        rcases List.mem_cons.mp hl with h | h
        · exact ⟨(o1, o2), by simp, by rw [h]⟩
        · obtain ⟨o', ho', he⟩ := ih tail hrec l h
          exact ⟨o', by simp [ho'], he⟩

theorem intRange_if_mem (c1 c2 : Prop) [Decidable c1] [Decidable c2] :
    ∀ x ∈ intRange (if c1 then -1 else 0) (if c2 then 2 else 1),
      x ∈ ([-1, 0, 1] : List Int) := by
  have e1 : intRange (-1) 2 = [-1, 0, 1] := by decide
  have e2 : intRange (-1) 1 = [-1, 0] := by decide
  have e3 : intRange 0 2 = [0, 1] := by decide
  have e4 : intRange 0 1 = [0] := by decide
  by_cases a : c1 <;> by_cases b : c2 <;> simp [a, b, e1, e2, e3, e4]

theorem mem_dirs8_of (dr dc : Int) (h1 : dr ∈ ([-1, 0, 1] : List Int))
    (h2 : dc ∈ ([-1, 0, 1] : List Int)) (h3 : ¬(dr = 0 ∧ dc = 0)) :
    (dr, dc) ∈ dirs8 := by
  simp only [List.mem_cons, List.not_mem_nil, or_false] at h1 h2
  rcases h1 with h | h | h <;> rcases h2 with h' | h' | h' <;> subst h <;> subst h' <;>
    first
    | decide
    | exact absurd ⟨rfl, rfl⟩ h3

theorem getAdjacentCells_mem_dirs8 (g : Grid) (p : Cell) (ls : List Letter)
    (h : getAdjacentCells g p = .ok ls) :
    ∀ l ∈ ls, (l.cell.row - p.row, l.cell.column - p.column) ∈ dirs8 ∧
      l.cell = ⟨p.row + (l.cell.row - p.row), p.column + (l.cell.column - p.column)⟩ := by
  intro l hl
  simp only [getAdjacentCells] at h
  obtain ⟨o, ho, he⟩ := collectAdj_mem g p _ ls h l hl
  have hmem := List.mem_filter.mp ho
  obtain ⟨dr, hdr, hdc⟩ := List.mem_flatMap.mp hmem.1
  obtain ⟨dc, hdc', rfl⟩ := List.mem_map.mp hdc
  have hne : ¬(dr = 0 ∧ dc = 0) := by
    intro ⟨ha, hb⟩
    subst ha; subst hb
    simpa using hmem.2
  have hd8 := mem_dirs8_of dr dc (intRange_if_mem _ _ dr hdr)
    (intRange_if_mem _ _ dc hdc') hne
  rw [he]
  constructor
  · simpa using hd8
  · simp

theorem gmwStep_mem (g : Grid) (start : Cell) (letter : Letter) (acc : List Word)
    (w : Str) (out : List Word) (h : gmwStep g start letter acc w = .ok out) :
    ∀ x ∈ out, x ∈ acc ∨
      (x.start = start ∧
        x.endCell = ⟨start.row + (letter.cell.row - start.row) * ((x.word.length : Int) - 1),
          start.column + (letter.cell.column - start.column) * ((x.word.length : Int) - 1)⟩) := by
  intro x hx
  match w with
  | [] => cases h
  | [_] => cases h
  | a :: b :: t =>
    simp only [gmwStep] at h
    by_cases hb : letter.char ≠ b
    · rw [if_pos hb] at h
      cases h
      exact Or.inl hx
    · rw [if_neg hb] at h
      by_cases hm : cellsMatchToWord g (a :: b :: t) start
          (letter.cell.row - start.row, letter.cell.column - start.column) = true
      · rw [if_pos hm] at h
        cases h
        rcases List.mem_append.mp hx with h' | h'
        · exact Or.inl h'
        · simp only [List.mem_singleton] at h'
          subst h'
          exact Or.inr ⟨rfl, rfl⟩
      · rw [if_neg hm] at h
        cases h
        exact Or.inl hx

theorem gmwWords_mem (g : Grid) (start : Cell) (letter : Letter) :
    ∀ (ws : List Str) (acc out : List Word),
      gmwWords g start letter ws acc = .ok out →
      ∀ x ∈ out, x ∈ acc ∨
        (x.start = start ∧
          x.endCell = ⟨start.row + (letter.cell.row - start.row) * ((x.word.length : Int) - 1),
            start.column + (letter.cell.column - start.column) * ((x.word.length : Int) - 1)⟩) := by
  intro ws
  induction ws with
  | nil =>
    intro acc out h x hx
    cases h
    exact Or.inl hx
  | cons w rest ih =>
    intro acc out h x hx
    simp only [gmwWords] at h
    cases hstep : gmwStep g start letter acc w with
    | error e => rw [hstep] at h; cases h
    | ok acc' =>
      rw [hstep] at h
      rcases ih acc' out h x hx with h' | h'
      · exact gmwStep_mem g start letter acc w acc' hstep x h'
      · exact Or.inr h'

theorem gmwLetters_mem (g : Grid) (start : Cell) (words : List Str) :
    ∀ (ls : List Letter) (acc out : List Word),
      gmwLetters g start words ls acc = .ok out →
      ∀ x ∈ out, x ∈ acc ∨
        ∃ l ∈ ls, x.start = start ∧
          x.endCell = ⟨start.row + (l.cell.row - start.row) * ((x.word.length : Int) - 1),
            start.column + (l.cell.column - start.column) * ((x.word.length : Int) - 1)⟩ := by
  intro ls
  induction ls with
  | nil =>
    intro acc out h x hx
    cases h
    exact Or.inl hx
  | cons l rest ih =>
    intro acc out h x hx
    simp only [gmwLetters] at h
    cases hw : gmwWords g start l words acc with
    | error e => rw [hw] at h; cases h
    | ok acc' =>
      rw [hw] at h
      rcases ih acc' out h x hx with h' | h'
      · rcases gmwWords_mem g start l words acc acc' hw x h' with h'' | h''
        · exact Or.inl h''
        · exact Or.inr ⟨l, by simp, h''⟩
      · obtain ⟨l', hl', hs⟩ := h'
        exact Or.inr ⟨l', by simp [hl'], hs⟩

theorem getMatchedWords_mem (g : Grid) (start : Cell) (letters : List Letter)
    (words : List Str) (out : List Word)
    (h : getMatchedWords g start letters words = .ok out) :
    ∀ x ∈ out,
      ∃ l ∈ letters, x.start = start ∧
        x.endCell = ⟨start.row + (l.cell.row - start.row) * ((x.word.length : Int) - 1),
          start.column + (l.cell.column - start.column) * ((x.word.length : Int) - 1)⟩ := by
  intro x hx
  rcases gmwLetters_mem g start words letters [] out h x hx with h' | h'
  · cases h'
  · exact h'

theorem findWordsAux_mem (g : Grid) :
    ∀ (cells : List (Cell × Char)) (idx : Index) (found : List Word)
      (rs ps : List Cell) (out : List Word),
      (findWordsAux g cells idx found rs ps).out = .ok out →
      ∀ x ∈ out, x ∈ found ∨
        ∃ d ∈ dirs8,
          x.endCell.row = x.start.row + d.1 * ((x.word.length : Int) - 1) ∧
          x.endCell.column = x.start.column + d.2 * ((x.word.length : Int) - 1) := by
  intro cells
  induction cells with
  | nil =>
    intro idx found rs ps out h x hx
    simp only [findWordsAux] at h
    cases h
    exact Or.inl hx
  | cons q rest ih =>
    obtain ⟨cell, letter⟩ := q
    intro idx found rs ps out h x hx
    simp only [findWordsAux] at h
    by_cases hidx : idx = []
    · rw [if_pos hidx] at h
      cases h
      exact Or.inl hx
    · rw [if_neg hidx] at h
      cases hl : lookupIndex idx letter with
      | none =>
        simp only [hl] at h
        exact ih idx found (rs ++ [cell]) (ps ++ [cell]) out h x hx
      | some bucket =>
        simp only [hl] at h
        cases hadj : getAdjacentCells g cell with
        | error e => simp [hadj] at h
        | ok adj =>
          simp only [hadj] at h
          cases hgm : getMatchedWords g cell adj bucket with
          | error e => simp [hgm] at h
          | ok matched =>
            simp only [hgm] at h
            by_cases hm : matched = []
            · rw [if_pos hm] at h
              exact ih idx found (rs ++ [cell]) (ps ++ [cell]) out h x hx
            · rw [if_neg hm] at h
              cases hf : filterWords bucket (matched.map (·.word)) with
              | error e => simp [hf] at h
              | ok nb =>
                simp only [hf] at h
                rcases ih _ (found ++ matched) (rs ++ [cell]) (ps ++ [cell]) out h x hx
                  with h' | h'
                · rcases List.mem_append.mp h' with h'' | h''
                  · exact Or.inl h''
                  · obtain ⟨l, hladj, hstart, hend⟩ :=
                      getMatchedWords_mem g cell adj bucket matched hgm x h''
                    obtain ⟨hd8, _⟩ := getAdjacentCells_mem_dirs8 g cell adj hadj l hladj
                    refine Or.inr ⟨(l.cell.row - cell.row, l.cell.column - cell.column),
                      hd8, ?_, ?_⟩
                    · rw [hend, hstart]
                    · rw [hend, hstart]
                · exact Or.inr h'

/-- C8: every `Word` record produced by `find_words` satisfies
`end = start + direction × (len(word) − 1)` for one of the 8 direction
vectors in `\x7b-1,0,1\x7d² minus (0,0)`. -/
theorem findWords_end_on_direction_line (g : Grid) (ws : List Str)
    (out : List Word) (x : Word) (hout : findWords g ws = .ok out) (hx : x ∈ out) :
    ∃ d ∈ dirs8,
      x.endCell.row = x.start.row + d.1 * ((x.word.length : Int) - 1) ∧
      x.endCell.column = x.start.column + d.2 * ((x.word.length : Int) - 1) := by
  unfold findWords findWordsFull at hout
  cases hd : createWordsDictionary ws with
  | error e => rw [hd] at hout; cases hout
  | ok idx =>
    rw [hd] at hout
    rcases findWordsAux_mem g (cellsOf g) idx [] [] [] out hout x hx with h | h
    · cases h
    · exact h

/-- Witness for C8 on the concrete CAT grid. -/
theorem findWords_end_on_direction_line_witness :
    ∃ d ∈ dirs8,
      (Word.mk ['C', 'A', 'T'] ⟨0, 0⟩ ⟨0, 2⟩).endCell.row =
        (Word.mk ['C', 'A', 'T'] ⟨0, 0⟩ ⟨0, 2⟩).start.row +
          d.1 * (((Word.mk ['C', 'A', 'T'] ⟨0, 0⟩ ⟨0, 2⟩).word.length : Int) - 1) ∧
      (Word.mk ['C', 'A', 'T'] ⟨0, 0⟩ ⟨0, 2⟩).endCell.column =
        (Word.mk ['C', 'A', 'T'] ⟨0, 0⟩ ⟨0, 2⟩).start.column +
          d.2 * (((Word.mk ['C', 'A', 'T'] ⟨0, 0⟩ ⟨0, 2⟩).word.length : Int) - 1) :=
  findWords_end_on_direction_line
    [['C', 'A', 'T'], ['X', 'X', 'X'], ['X', 'X', 'X']] [['C', 'A', 'T']]
    [⟨['C', 'A', 'T'], ⟨0, 0⟩, ⟨0, 2⟩⟩] ⟨['C', 'A', 'T'], ⟨0, 0⟩, ⟨0, 2⟩⟩
    (by decide) (by decide)

/-- C1: contrary to the claim, `cells_match_to_word` performs no explicit
`0 ≤ index < length` range check — it relies on a caught `IndexError`, and
numpy silently wraps negative indices.  Walking "AB" leftwards from (0,0) on
the 1×2 grid `[[A,B]]` steps to column −1, outside the grid, yet the matcher
returns `true` because the read wraps to the last column. -/
theorem cellsMatchToWord_wraparound_false_positive :
    cellsMatchToWord [['A', 'B']] ['A', 'B'] ⟨0, 0⟩ (0, -1) = true ∧
      inBoundsCell [['A', 'B']] ⟨0, -1⟩ = false := by decide

/-- C2: round-trip placement fails.  On the well-formed 2×4 grid
`[[B,A,X,C],[A,B,C,X]]` the word "ABC" is planted at (1,0)→(1,2) (direction
(0,1)) and occurs in bounds nowhere else, yet `find_words` reports it at
start (0,1) with end (0,−1): the scan finds a ghost match through numpy's
negative-index wraparound and consumes the word before reaching the planted
placement. -/
theorem findWords_roundtrip_wraparound_ghost :
    WellFormed [['B', 'A', 'X', 'C'], ['A', 'B', 'C', 'X']] ∧
      straightLine [['B', 'A', 'X', 'C'], ['A', 'B', 'C', 'X']]
        ['A', 'B', 'C'] ⟨1, 0⟩ (0, 1) = true ∧
      ((cellsOf [['B', 'A', 'X', 'C'], ['A', 'B', 'C', 'X']]).all fun p =>
        dirs8.all fun d =>
          !(straightLine [['B', 'A', 'X', 'C'], ['A', 'B', 'C', 'X']]
              ['A', 'B', 'C'] p.1 d) ||
            (decide (p.1 = ⟨1, 0⟩) && decide (d = (0, 1)))) = true ∧
      findWords [['B', 'A', 'X', 'C'], ['A', 'B', 'C', 'X']] [['A', 'B', 'C']] =
        .ok [⟨['A', 'B', 'C'], ⟨0, 1⟩, ⟨0, -1⟩⟩] := by decide

/-- C3 counterexample: with word list `["AB","AB"]` and "AB" planted at the
two non-overlapping placements (0,0)→(0,1) and (2,0)→(2,1), `find_words`
reports the first placement twice and never reports the second, contradicting
the claim that both occurrences are reported. -/
theorem findWords_duplicate_second_placement_missing :
    (findWords [['A', 'B', 'X'], ['X', 'X', 'X'], ['A', 'B', 'X']]
        [['A', 'B'], ['A', 'B']]).toOption.getD [] =
      [⟨['A', 'B'], ⟨0, 0⟩, ⟨0, 1⟩⟩, ⟨['A', 'B'], ⟨0, 0⟩, ⟨0, 1⟩⟩] ∧
    Word.mk ['A', 'B'] ⟨2, 0⟩ ⟨2, 1⟩ ∉
      (findWords [['A', 'B', 'X'], ['X', 'X', 'X'], ['A', 'B', 'X']]
        [['A', 'B'], ['A', 'B']]).toOption.getD [] := by decide

/-- C3 (amended): both copies of a duplicated word are matched and consumed at
the first placement the scan reaches.  With "AB" listed twice and planted
twice ((0,0)→(0,1) and (2,0)→(2,1)), `find_words` reports two records, both
for the first placement, and the index ends empty; with "AB" listed twice and
planted once, it likewise reports that placement twice and no candidate copy
remains unconsumed. -/
theorem findWords_duplicate_consumption_actual :
    findWordsFull [['A', 'B', 'X'], ['X', 'X', 'X'], ['A', 'B', 'X']]
        [['A', 'B'], ['A', 'B']] =
      ⟨.ok [⟨['A', 'B'], ⟨0, 0⟩, ⟨0, 1⟩⟩, ⟨['A', 'B'], ⟨0, 0⟩, ⟨0, 1⟩⟩],
        [], [⟨0, 0⟩, ⟨0, 1⟩], [⟨0, 0⟩]⟩ ∧
    findWordsFull [['A', 'B', 'X'], ['X', 'X', 'X'], ['X', 'X', 'X']]
        [['A', 'B'], ['A', 'B']] =
      ⟨.ok [⟨['A', 'B'], ⟨0, 0⟩, ⟨0, 1⟩⟩, ⟨['A', 'B'], ⟨0, 0⟩, ⟨0, 1⟩⟩],
        [], [⟨0, 0⟩, ⟨0, 1⟩], [⟨0, 0⟩]⟩ := by decide

/-- C4: contrary to the claim, `find_words` is not exception-free on
well-formed input.  On the 1×3 grid `[[B,A,B]]` the word "AB" (length 2)
matches from (0,1) in two directions; both matches name the same bucket
entry, so `filter_words` removes "AB" twice and the second `list.remove`
raises `ValueError`. -/
theorem findWords_two_direction_match_valueError :
    WellFormed [['B', 'A', 'B']] ∧
      findWords [['B', 'A', 'B']] [['A', 'B']] = .error .valueError := by decide

/-- C5: on the 3×3 grid `[[C,A,T],[X,X,X],[X,X,X]]` with word list `["CAT"]`,
`find_words` returns exactly one record: "CAT" with start (0,0) and
end (0,2). -/
theorem findWords_cat_scenario :
    findWords [['C', 'A', 'T'], ['X', 'X', 'X'], ['X', 'X', 'X']]
        [['C', 'A', 'T']] =
      .ok [⟨['C', 'A', 'T'], ⟨0, 0⟩, ⟨0, 2⟩⟩] := by decide

/-- C6 counterexample: on the CAT grid the last (only) match completes at
cell (0,0) — the only cell processed as a candidate — yet the scan also
fetches the letter of cell (0,1) before terminating, so one cell beyond the
completing cell is read. -/
theorem findWords_reads_past_completion :
    (findWordsFull [['C', 'A', 'T'], ['X', 'X', 'X'], ['X', 'X', 'X']]
        [['C', 'A', 'T']]).processed = [⟨0, 0⟩] ∧
      (findWordsFull [['C', 'A', 'T'], ['X', 'X', 'X'], ['X', 'X', 'X']]
        [['C', 'A', 'T']]).reads = [⟨0, 0⟩, ⟨0, 1⟩] := by decide

/-- C6 (amended): once the word index is empty the scan stops at the next
cell in row-major order: that one cell's letter is still fetched by the loop
iteration (it joins `reads`), but it is not processed as a candidate
(`processed` is unchanged), no later cell is touched, the index stays empty,
and the already-accumulated result list is returned. -/
theorem findWordsAux_empty_index_stops (g : Grid) (cell : Cell) (letter : Char)
    (rest : List (Cell × Char)) (found : List Word) (rs ps : List Cell) :
    findWordsAux g ((cell, letter) :: rest) [] found rs ps =
      ⟨.ok found, [], rs ++ [cell], ps⟩ := rfl

/-- C7 counterexample: the 1×1 grid is well-formed and (0,0) is in bounds,
yet `get_adjacent_cells` returns 0 entries, not between 3 and 8. -/
theorem getAdjacentCells_one_by_one_empty :
    WellFormed [['A']] ∧ inBoundsCell [['A']] ⟨0, 0⟩ = true ∧
      getAdjacentCells [['A']] ⟨0, 0⟩ = .ok [] := by decide

/-- C7 (amended): for every grid with at least 2 rows and 2 columns and every
in-bounds cell, `get_adjacent_cells` returns between 3 (corner) and 8
(interior) entries, each an in-bounds neighbor's character with its
coordinate, listed exactly in the spec's row-major offset order
(`neighborsSpec`: increasing row-delta, then increasing column-delta,
skipping (0,0)); it is a pure function of the grid and the position. -/
theorem getAdjacentCells_contract (g : Grid) (p : Cell)
    (hr : 2 ≤ rowsN g) (hc : 2 ≤ colsN g) (hp : inBoundsCell g p = true) :
    getAdjacentCells g p = .ok (neighborsSpec g p) ∧
      3 ≤ (neighborsSpec g p).length ∧ (neighborsSpec g p).length ≤ 8 ∧
      ∀ l ∈ neighborsSpec g p,
        inBoundsCell g l.cell = true ∧ l.char = charAt g l.cell.row l.cell.column :=
  ⟨getAdjacentCells_eq_neighborsSpec g p hp,
    three_le_neighborsSpec_length g p hr hc hp,
    neighborsSpec_length_le g p,
    neighborsSpec_mem g p⟩

/-- Witness for C7 at the 2×2 grid `[[A,B],[C,D]]`, cell (0,0). -/
theorem getAdjacentCells_contract_witness :
    getAdjacentCells [['A', 'B'], ['C', 'D']] ⟨0, 0⟩ =
        .ok (neighborsSpec [['A', 'B'], ['C', 'D']] ⟨0, 0⟩) ∧
      3 ≤ (neighborsSpec [['A', 'B'], ['C', 'D']] ⟨0, 0⟩).length ∧
      (neighborsSpec [['A', 'B'], ['C', 'D']] ⟨0, 0⟩).length ≤ 8 ∧
      ∀ l ∈ neighborsSpec [['A', 'B'], ['C', 'D']] ⟨0, 0⟩,
        inBoundsCell [['A', 'B'], ['C', 'D']] l.cell = true ∧
          l.char = charAt [['A', 'B'], ['C', 'D']] l.cell.row l.cell.column :=
  getAdjacentCells_contract [['A', 'B'], ['C', 'D']] ⟨0, 0⟩ (by decide) (by decide)
    (by decide)

/-- Witness for C9 at grid `[['A']]` and word list `[""]`. -/
theorem findWords_empty_word_witness :
    createWordsDictionary [[]] = .error .indexError ∧
      findWords [['A']] [[]] = .error .indexError ∧
      (findWordsFull [['A']] [[]]).reads = [] ∧
      (findWordsFull [['A']] [[]]).processed = [] :=
  findWords_empty_word [['A']] [[]] (by decide)
